import Mathlib

/-!
Verification of the training-loop driver in `playground/train.py` of the
SymmetricRL repository.

The driver (`main`) is shallowly embedded as a pure state machine: each
training iteration consumes per-step environment results (done flags and
info dicts), threads the episode-reward deque, the `next_checkpoint`
threshold and `max_ep_reward` through the loop, and emits a trace of
events (`set_optimizer_lr`, `envs.step`, `rollouts.insert`, `get_value`,
`compute_returns`, `agent.update`, `after_update`, `torch.save`,
`logger.log_epoch`) in the order the Python code performs them.
Machine floats are modelled as rationals; `float("-inf")` as `⊥ : WithBot ℚ`.
An `Except`-layer run models the fact that `torch.save` can raise and that
no handler catches it inside the loop.
-/

namespace SymmetricRL

/-- One entry of the `infos` list returned by `envs.step` (train.py line 215).
`keys` models `info.keys()`; `episodeR` models `info["episode"]["r"]`, meaningful
only when `"episode" ∈ keys`. -/
structure Info where
  keys : List String
  episodeR : ℚ
deriving DecidableEq

/-- The per-step result of `envs.step(cpu_actions)` restricted to the parts the
driver's bookkeeping reads: the `done` flags and the `infos` list. -/
structure StepOut where
  done : List Bool
  infos : List Info
deriving DecidableEq

/-- The configuration surface of `main` that the loop reads (train.py `configs`). -/
structure Args where
  envName : String
  numFrames : ℕ
  numSteps : ℕ
  numProcesses : ℕ
  saveEvery : ℕ
  saveDir : String
  lrDecayType : String
  lr : ℚ
deriving DecidableEq

/-- External inputs consumed by one iteration: the environment's step results,
the wall-clock-derived fps value, and the `(value_loss, action_loss, dist_entropy)`
triple returned by `agent.update` (train.py line 250). -/
structure IterInput where
  env : ℕ → StepOut
  fps : ℤ
  ppo : ℚ × ℚ × ℚ

/-- `num_updates = int(args.num_frames) // args.num_steps // args.num_processes`
(train.py line 184). -/
def numUpdates (a : Args) : ℕ := a.numFrames / a.numSteps / a.numProcesses

/-- Modelled from the spec: `linear_decay` from `common.misc_utils` is not under
`src/`; the spec describes it as the "linear to zero" policy, i.e. linear
interpolation from `initial_value` at iteration `0` to `final_value` at
iteration `total`. -/
def linear_decay (iter total : ℕ) (initial_value final_value : ℚ) : ℚ :=
  initial_value - (initial_value - final_value) * iter / total

/-- Modelled from the spec: `exponential_decay` from `common.misc_utils` is not
under `src/`; the spec describes it as "exponential decay toward a floor":
`initial_value * rate ^ iter`, floored at `final_value`. -/
def exponential_decay (iter : ℕ) (rate initial_value final_value : ℚ) : ℚ :=
  max (initial_value * rate ^ iter) final_value

/-- The learning-rate dispatch of train.py lines 196-201. -/
def scheduledLr (a : Args) (j : ℕ) : ℚ :=
  if a.lrDecayType = "linear" then linear_decay j (numUpdates a) a.lr 0
  else if a.lrDecayType = "exponential" then exponential_decay j (99/100) a.lr (3/100000)
  else a.lr

/-- `collections.deque(maxlen=...)` append: push on the right, dropping from the
left anything beyond `maxlen` (train.py line 183). -/
def dequePush (maxlen : ℕ) (w : List ℚ) (x : ℚ) : List ℚ :=
  (w ++ [x]).drop ((w ++ [x]).length - maxlen)

/-- The `for p_index, info in enumerate(infos)` bookkeeping of train.py
lines 219-226 restricted to its effect on `episode_rewards`: append
`info["episode"]["r"]` whenever `"episode"` is among the info's keys. -/
def processInfos (maxlen : ℕ) (w : List ℚ) (infos : List Info) : List ℚ :=
  infos.foldl
    (fun acc info => if "episode" ∈ info.keys then dequePush maxlen acc info.episodeR else acc) w

/-- `masks = torch.FloatTensor([[0.0] if done_ else [1.0] for done_ in done])`
(train.py line 228), one rational per process. -/
def computeMasks (done : List Bool) : List ℚ :=
  done.map fun d => if d then 0 else 1

/-- `bad_masks`: initialised to ones, entry `p` set to `0.0` when
`"bad_transition"` is among the keys of `infos[p]` (train.py lines 218-223). -/
def badMasksOf (infos : List Info) : List ℚ :=
  infos.map fun info => if "bad_transition" ∈ info.keys then 0 else 1

/-- `np.mean` on the episode-reward deque. -/
def npMean (w : List ℚ) : ℚ := w.sum / w.length

/-- Which checkpoint file a `torch.save` call targets: `"{env}_latest.pt"`,
`"{env}_{int(next_checkpoint)}.pt"` or `"{env}_best.pt"`. -/
inductive SaveTag where
  | latest
  | snapshot (ck : ℕ)
  | best
deriving DecidableEq

/-- The structured record passed to `logger.log_epoch` (train.py lines 285-294). -/
structure LogRecord where
  iter : ℕ
  totalNumSteps : ℕ
  fps : ℤ
  entropy : ℚ
  valueLoss : ℚ
  actionLoss : ℚ
  rew : List ℚ
deriving DecidableEq

/-- Observable operations of one driver iteration, in program order. -/
inductive Event where
  | setLr (lr : ℚ)
  | envStep (step : ℕ)
  | insert (step : ℕ) (masks badMasks : List ℚ)
  | getValue
  | computeReturns
  | ppoUpdate
  | afterUpdate
  | save (dir : String) (tag : SaveTag)
  | log (r : LogRecord)
deriving DecidableEq

/-- The collection loop `for step in range(args.num_steps)` (train.py
lines 205-241): each step issues `envs.step`, updates the episode-reward
deque from the infos, and performs one `rollouts.insert` carrying the masks
and bad_masks computed from that step's results. Returns the final deque
and the emitted events. -/
def collect (a : Args) (env : ℕ → StepOut) : List ℕ → List ℚ → List ℚ × List Event
  | [], w => (w, [])
  | s :: rest, w =>
    let out := env s
    let w2 := processInfos a.numProcesses w out.infos
    let res := collect a env rest w2
    (res.1,
     Event.envStep s :: Event.insert s (computeMasks out.done) (badMasksOf out.infos) :: res.2)

/-- The hard-coded Google-Drive directory of train.py lines 270 and 279. -/
def gdriveDir : String := "/content/gdrive/My Drive/darwin2"

/-- The `model_name` format strings of train.py lines 258, 261 and 274. -/
def fileName (a : Args) : SaveTag → String
  | SaveTag.latest => a.envName ++ "_latest.pt"
  | SaveTag.snapshot ck => a.envName ++ "_" ++ toString ck ++ ".pt"
  | SaveTag.best => a.envName ++ "_best.pt"

/-- The checkpoint phase of train.py lines 254-280, as data: the updated
`next_checkpoint`, the updated `max_ep_reward`, and the ordered list of
`(directory, tag)` pairs handed to `torch.save`. The snapshot name is chosen
(and `next_checkpoint` advanced) when the frame count reaches the threshold or
the iteration is the last one, provided `save_dir` is nonempty; otherwise the
latest name is chosen. The best checkpoint is additionally written when more
than one episode reward is recorded and the window mean strictly exceeds
`max_ep_reward`. -/
def savePlan (a : Args) (nU j ck : ℕ) (mR : WithBot ℚ) (w : List ℚ) :
    (ℕ × WithBot ℚ) × List (String × SaveTag) :=
  let p :=
    if (ck ≤ (j + 1) * a.numSteps * a.numProcesses ∨ j = nU - 1) ∧ a.saveDir ≠ "" then
      (SaveTag.snapshot ck, ck + a.saveEvery)
    else (SaveTag.latest, ck)
  let base := [(gdriveDir, p.1), (a.saveDir, p.1)]
  if 1 < w.length ∧ mR < ((npMean w : ℚ) : WithBot ℚ) then
    (((p.2 : ℕ), ((npMean w : ℚ) : WithBot ℚ)),
      base ++ [(gdriveDir, SaveTag.best), (a.saveDir, SaveTag.best)])
  else ((p.2, mR), base)

/-- The checkpoint phase as events (each planned `torch.save` succeeding). -/
def saveEvents (a : Args) (nU j ck : ℕ) (mR : WithBot ℚ) (w : List ℚ) :
    (ℕ × WithBot ℚ) × List Event :=
  let sp := savePlan a nU j ck mR w
  (sp.1, sp.2.map fun dt => Event.save dt.1 dt.2)

/-- The logging phase of train.py lines 282-295: one `log_epoch` record exactly
when more than one episode reward has been recorded. -/
def logEvents (a : Args) (j : ℕ) (w : List ℚ) (fps : ℤ) (ppo : ℚ × ℚ × ℚ) : List Event :=
  if 1 < w.length then
    [Event.log { iter := j + 1, totalNumSteps := (j + 1) * a.numProcesses * a.numSteps,
                 fps := fps, entropy := ppo.2.2, valueLoss := ppo.1, actionLoss := ppo.2.1,
                 rew := w }]
  else []

/-- The driver state threaded across iterations (train.py lines 183-188). -/
structure DriverState where
  episodeRewards : List ℚ
  nextCheckpoint : ℕ
  maxEpReward : WithBot ℚ
deriving DecidableEq, Inhabited

/-- State before the first iteration: empty deque, `next_checkpoint = save_every`,
`max_ep_reward = float("-inf")`. -/
def initState (a : Args) : DriverState :=
  { episodeRewards := [], nextCheckpoint := a.saveEvery, maxEpReward := ⊥ }

/-- One iteration of the `for j in range(num_updates)` loop (train.py
lines 194-295): learning-rate push, `num_steps` collection steps, value
bootstrap, `compute_returns`, `agent.update`, `after_update`, checkpoint
saves, logging. Returns the successor state and the iteration's event trace. -/
def iterTrace (a : Args) (nU j : ℕ) (inp : IterInput) (st : DriverState) :
    DriverState × List Event :=
  let c := collect a inp.env (List.range a.numSteps) st.episodeRewards
  let sv := saveEvents a nU j st.nextCheckpoint st.maxEpReward c.1
  ({ episodeRewards := c.1, nextCheckpoint := sv.1.1, maxEpReward := sv.1.2 },
   Event.setLr (scheduledLr a j) :: c.2
     ++ [Event.getValue, Event.computeReturns, Event.ppoUpdate, Event.afterUpdate]
     ++ sv.2 ++ logEvents a j c.1 inp.fps inp.ppo)

/-- The remaining iterations of the driver loop, with `n` iterations left and
the next iteration index `j`; collects each iteration's post-state and trace. -/
def runAux (a : Args) (inputs : ℕ → IterInput) :
    ℕ → ℕ → DriverState → List (DriverState × List Event)
  | 0, _, _ => []
  | n + 1, j, st =>
    let r := iterTrace a (numUpdates a) j (inputs j) st
    r :: runAux a inputs n (j + 1) r.1

/-- The whole driver loop `for j in range(num_updates)`. -/
def driverRun (a : Args) (inputs : ℕ → IterInput) : List (DriverState × List Event) :=
  runAux a inputs (numUpdates a) 0 (initState a)

/-- A `torch.save` call against a filesystem oracle `fs` (`fs dir name = true`
when the write succeeds): on success it is the corresponding save event, on
failure it raises. -/
def torchSave (fs : String → String → Bool) (a : Args) (dir : String) (tag : SaveTag) :
    Except String Event :=
  if fs dir (fileName a tag) then Except.ok (Event.save dir tag)
  else Except.error ("could not save " ++ dir ++ "/" ++ fileName a tag)

/-- Runs the planned `torch.save` calls in order, stopping at the first failure.
No handler in the loop body catches the raised error. -/
def saveAll (fs : String → String → Bool) (a : Args) :
    List (String × SaveTag) → Except String (List Event)
  | [] => Except.ok []
  | dt :: rest =>
    match torchSave fs a dt.1 dt.2 with
    | Except.error e => Except.error e
    | Except.ok ev =>
      match saveAll fs a rest with
      | Except.error e => Except.error e
      | Except.ok evs => Except.ok (ev :: evs)

/-- One driver iteration with fallible checkpoint writes: identical to
`iterTrace` except that each planned `torch.save` consults the oracle and a
failure propagates out of the iteration. -/
def iterTraceE (a : Args) (fs : String → String → Bool) (nU j : ℕ) (inp : IterInput)
    (st : DriverState) : Except String (DriverState × List Event) :=
  let c := collect a inp.env (List.range a.numSteps) st.episodeRewards
  let sp := savePlan a nU j st.nextCheckpoint st.maxEpReward c.1
  match saveAll fs a sp.2 with
  | Except.error e => Except.error e
  | Except.ok evs =>
    Except.ok
      ({ episodeRewards := c.1, nextCheckpoint := sp.1.1, maxEpReward := sp.1.2 },
       Event.setLr (scheduledLr a j) :: c.2
         ++ [Event.getValue, Event.computeReturns, Event.ppoUpdate, Event.afterUpdate]
         ++ evs ++ logEvents a j c.1 inp.fps inp.ppo)

/-- The driver loop with fallible checkpoint writes. -/
def runAuxE (a : Args) (fs : String → String → Bool) (inputs : ℕ → IterInput) :
    ℕ → ℕ → DriverState → Except String (List (DriverState × List Event))
  | 0, _, _ => Except.ok []
  | n + 1, j, st =>
    match iterTraceE a fs (numUpdates a) j (inputs j) st with
    | Except.error e => Except.error e
    | Except.ok r =>
      match runAuxE a fs inputs n (j + 1) r.1 with
      | Except.error e => Except.error e
      | Except.ok rest => Except.ok (r :: rest)

/-- The whole driver loop with fallible checkpoint writes. -/
def driverRunE (a : Args) (fs : String → String → Bool) (inputs : ℕ → IterInput) :
    Except String (List (DriverState × List Event)) :=
  runAuxE a fs inputs (numUpdates a) 0 (initState a)

/-- Modelled from the spec: the non-GAE branch of `RolloutStorage.compute_returns`
(`algorithms/storage.py`, which is not under `src/`): `returns[T] = bootstrap`;
for `t = T-1` down to `0`, `returns[t] = returns[t+1] * gamma * mask[t+1] +
reward[t]`. `steps` lists, for `t = 0, …, T-1`, the pair
`(reward[t], mask[t+1])`; the result lists `returns[0], …, returns[T]`. -/
def compute_returns_no_gae (gamma bootstrap : ℚ) : List (ℚ × ℚ) → List ℚ
  | [] => [bootstrap]
  | rm :: rest =>
    let tail := compute_returns_no_gae gamma bootstrap rest
    (tail.headI * gamma * rm.2 + rm.1) :: tail

/-- Recognizes `logger.log_epoch` events. -/
def isLog : Event → Bool
  | Event.log _ => true
  | _ => false

/-- Recognizes `envs.step` events. -/
def isEnvStep : Event → Bool
  | Event.envStep _ => true
  | _ => false

/-- Recognizes `rollouts.insert` events. -/
def isInsert : Event → Bool
  | Event.insert _ _ _ => true
  | _ => false

/-- Number of `log_epoch` records in a trace. -/
def countLogs (t : List Event) : ℕ := (t.filter isLog).length

/-- The event skeleton of the collection phase: for each step, one `envs.step`
followed by one `rollouts.insert` carrying that step's masks and bad_masks. -/
def stepPhase (env : ℕ → StepOut) : List ℕ → List Event
  | [] => []
  | s :: rest =>
    Event.envStep s ::
      Event.insert s (computeMasks (env s).done) (badMasksOf (env s).infos) ::
        stepPhase env rest

/-- The window means recorded at the iterations that wrote a best checkpoint. -/
def bestSaveMeans (pairs : List (DriverState × List Event)) : List ℚ :=
  (pairs.filter fun p => decide (Event.save gdriveDir SaveTag.best ∈ p.2)).map
    fun p => npMean p.1.episodeRewards

lemma collect_snd (a : Args) (env : ℕ → StepOut) :
    ∀ (l : List ℕ) (w : List ℚ), (collect a env l w).2 = stepPhase env l := by
  intro l
  induction l with
  | nil => intro w; rfl
  | cons s rest ih => intro w; simp [collect, stepPhase, ih]

lemma stepPhase_mem (env : ℕ → StepOut) :
    ∀ (l : List ℕ) (e : Event), e ∈ stepPhase env l →
      (∃ s, e = Event.envStep s) ∨
        ∃ s, e = Event.insert s (computeMasks (env s).done) (badMasksOf (env s).infos) := by
  intro l
  induction l with
  | nil => intro e he; simp [stepPhase] at he
  | cons s rest ih =>
    intro e he
    simp only [stepPhase, List.mem_cons] at he
    rcases he with h | h | h
    · exact Or.inl ⟨s, h⟩
    · exact Or.inr ⟨s, h⟩
    · exact ih e h

lemma stepPhase_insert_mem (env : ℕ → StepOut) (l : List ℕ) (s : ℕ) (m bm : List ℚ)
    (h : Event.insert s m bm ∈ stepPhase env l) :
    m = computeMasks (env s).done ∧ bm = badMasksOf (env s).infos := by
  rcases stepPhase_mem env l _ h with ⟨s', hs'⟩ | ⟨s', hs'⟩
  · simp at hs'
  · rw [Event.insert.injEq] at hs'
    rcases hs' with ⟨hss, hm, hbm⟩
    subst hss
    exact ⟨hm, hbm⟩

lemma stepPhase_filter_envStep (env : ℕ → StepOut) :
    ∀ l : List ℕ, ((stepPhase env l).filter isEnvStep).length = l.length := by
  intro l
  induction l with
  | nil => rfl
  | cons s rest ih => simp [stepPhase, List.filter, isEnvStep, ih]

lemma stepPhase_filter_insert (env : ℕ → StepOut) :
    ∀ l : List ℕ, ((stepPhase env l).filter isInsert).length = l.length := by
  intro l
  induction l with
  | nil => rfl
  | cons s rest ih => simp [stepPhase, List.filter, isInsert, ih]

lemma saveEvents_mem_save (a : Args) (nU j ck : ℕ) (mR : WithBot ℚ) (w : List ℚ)
    (e : Event) (he : e ∈ (saveEvents a nU j ck mR w).2) : ∃ d t, e = Event.save d t := by
  simp only [saveEvents, List.mem_map] at he
  rcases he with ⟨dt, _, hdt⟩
  exact ⟨dt.1, dt.2, hdt.symm⟩

lemma saveEvents_best_mem (a : Args) (nU j ck : ℕ) (mR : WithBot ℚ) (w : List ℚ) :
    Event.save gdriveDir SaveTag.best ∈ (saveEvents a nU j ck mR w).2 ↔
      1 < w.length ∧ mR < ((npMean w : ℚ) : WithBot ℚ) := by
  simp only [saveEvents, savePlan]
  split
  · split <;> simp_all
  · split <;> simp_all

lemma saveEvents_maxR (a : Args) (nU j ck : ℕ) (mR : WithBot ℚ) (w : List ℚ) :
    (saveEvents a nU j ck mR w).1.2 =
      if 1 < w.length ∧ mR < ((npMean w : ℚ) : WithBot ℚ) then ((npMean w : ℚ) : WithBot ℚ)
      else mR := by
  simp only [saveEvents, savePlan]
  split <;> split <;> simp_all

lemma logEvents_mem (a : Args) (j : ℕ) (w : List ℚ) (fps : ℤ) (ppo : ℚ × ℚ × ℚ)
    (e : Event) (he : e ∈ logEvents a j w fps ppo) : ∃ r, e = Event.log r := by
  simp only [logEvents] at he
  split at he
  · simp only [List.mem_singleton] at he
    exact ⟨_, he⟩
  · simp at he

lemma iterTrace_trace (a : Args) (nU j : ℕ) (inp : IterInput) (st : DriverState) :
    (iterTrace a nU j inp st).2 =
      Event.setLr (scheduledLr a j) :: stepPhase inp.env (List.range a.numSteps)
        ++ [Event.getValue, Event.computeReturns, Event.ppoUpdate, Event.afterUpdate]
        ++ (saveEvents a nU j st.nextCheckpoint st.maxEpReward
            (collect a inp.env (List.range a.numSteps) st.episodeRewards).1).2
        ++ logEvents a j (collect a inp.env (List.range a.numSteps) st.episodeRewards).1
            inp.fps inp.ppo := by
  simp [iterTrace, collect_snd]

lemma iterTrace_state (a : Args) (nU j : ℕ) (inp : IterInput) (st : DriverState) :
    (iterTrace a nU j inp st).1 =
      { episodeRewards := (collect a inp.env (List.range a.numSteps) st.episodeRewards).1,
        nextCheckpoint := (saveEvents a nU j st.nextCheckpoint st.maxEpReward
          (collect a inp.env (List.range a.numSteps) st.episodeRewards).1).1.1,
        maxEpReward := (saveEvents a nU j st.nextCheckpoint st.maxEpReward
          (collect a inp.env (List.range a.numSteps) st.episodeRewards).1).1.2 } := rfl

lemma runAux_length (a : Args) (inputs : ℕ → IterInput) :
    ∀ (n j : ℕ) (st : DriverState), (runAux a inputs n j st).length = n := by
  intro n
  induction n with
  | zero => intro j st; rfl
  | succ n ih => intro j st; simp [runAux, ih]

lemma iterTrace_mem_cases (a : Args) (nU j : ℕ) (inp : IterInput) (st : DriverState)
    (e : Event) (h : e ∈ (iterTrace a nU j inp st).2) :
    e = Event.setLr (scheduledLr a j)
    ∨ e ∈ stepPhase inp.env (List.range a.numSteps)
    ∨ e = Event.getValue ∨ e = Event.computeReturns ∨ e = Event.ppoUpdate
    ∨ e = Event.afterUpdate
    ∨ e ∈ (saveEvents a nU j st.nextCheckpoint st.maxEpReward
        (collect a inp.env (List.range a.numSteps) st.episodeRewards).1).2
    ∨ e ∈ logEvents a j (collect a inp.env (List.range a.numSteps) st.episodeRewards).1
        inp.fps inp.ppo := by
  rw [iterTrace_trace] at h
  simp only [List.cons_append, List.mem_cons, List.mem_append, List.mem_singleton,
    List.not_mem_nil, or_false] at h
  tauto

lemma insert_mem_iterTrace (a : Args) (nU j : ℕ) (inp : IterInput) (st : DriverState)
    (s : ℕ) (m bm : List ℚ) (h : Event.insert s m bm ∈ (iterTrace a nU j inp st).2) :
    m = computeMasks (inp.env s).done ∧ bm = badMasksOf (inp.env s).infos := by
  rcases iterTrace_mem_cases a nU j inp st _ h with h | h | h | h | h | h | h | h
  · simp at h
  · exact stepPhase_insert_mem inp.env _ s m bm h
  · simp at h
  · simp at h
  · simp at h
  · simp at h
  · rcases saveEvents_mem_save _ _ _ _ _ _ _ h with ⟨d, t, ht⟩
    simp at ht
  · rcases logEvents_mem _ _ _ _ _ _ h with ⟨r, hr⟩
    simp at hr

lemma saveEvents_filter (f : Event → Bool) (hf : ∀ d t, f (Event.save d t) = false)
    (a : Args) (nU j ck : ℕ) (mR : WithBot ℚ) (w : List ℚ) :
    (saveEvents a nU j ck mR w).2.filter f = [] := by
  have key : ∀ plan : List (String × SaveTag),
      ((plan.map fun dt => Event.save dt.1 dt.2).filter f) = [] := by
    intro plan
    induction plan with
    | nil => rfl
    | cons dt rest ih => simp [List.filter, hf, ih]
  simp only [saveEvents]
  exact key _

lemma logEvents_filter (f : Event → Bool) (hf : ∀ r, f (Event.log r) = false)
    (a : Args) (j : ℕ) (w : List ℚ) (fps : ℤ) (ppo : ℚ × ℚ × ℚ) :
    (logEvents a j w fps ppo).filter f = [] := by
  simp only [logEvents]
  split <;> simp [hf]

lemma stepPhase_filter_none (f : Event → Bool) (h1 : ∀ s, f (Event.envStep s) = false)
    (h2 : ∀ s m bm, f (Event.insert s m bm) = false) (env : ℕ → StepOut) :
    ∀ l : List ℕ, (stepPhase env l).filter f = [] := by
  intro l
  induction l with
  | nil => rfl
  | cons s rest ih => simp [stepPhase, List.filter, h1, h2, ih]

/-- C1: per driver iteration the operations occur in phase order: the
learning-rate push first, then exactly `num_steps` environment steps each
immediately followed by its `rollouts.insert`, then the value bootstrap
(`get_value`), then `compute_returns`, then `agent.update`, then
`after_update`, then the checkpoint saves, then the logging; and the trace
contains exactly `num_steps` environment-step events and exactly `num_steps`
insert events. -/
theorem C1_phase_order (a : Args) (nU j : ℕ) (inp : IterInput) (st : DriverState) :
    (iterTrace a nU j inp st).2 =
      Event.setLr (scheduledLr a j) :: stepPhase inp.env (List.range a.numSteps)
        ++ [Event.getValue, Event.computeReturns, Event.ppoUpdate, Event.afterUpdate]
        ++ (saveEvents a nU j st.nextCheckpoint st.maxEpReward
            (collect a inp.env (List.range a.numSteps) st.episodeRewards).1).2
        ++ logEvents a j (collect a inp.env (List.range a.numSteps) st.episodeRewards).1
            inp.fps inp.ppo
    ∧ ((iterTrace a nU j inp st).2.filter isEnvStep).length = a.numSteps
    ∧ ((iterTrace a nU j inp st).2.filter isInsert).length = a.numSteps := by
  refine ⟨iterTrace_trace a nU j inp st, ?_, ?_⟩
  · rw [iterTrace_trace]
    simp [List.filter_append, List.filter, isEnvStep,
      saveEvents_filter isEnvStep (fun _ _ => rfl),
      logEvents_filter isEnvStep (fun _ => rfl),
      stepPhase_filter_envStep]
  · rw [iterTrace_trace]
    simp [List.filter_append, List.filter, isInsert,
      saveEvents_filter isInsert (fun _ _ => rfl),
      logEvents_filter isInsert (fun _ => rfl),
      stepPhase_filter_insert]

/-- C2: the mask inserted into storage for process `p` is `0` when the
environment's done flag for `p` is true and `1` otherwise, and masks take no
value other than `0` or `1`: every insert event of an iteration carries
exactly `computeMasks` of that step's done flags. -/
theorem C2_masks_from_done (a : Args) (nU j : ℕ) (inp : IterInput) (st : DriverState) :
    (∀ s m bm, Event.insert s m bm ∈ (iterTrace a nU j inp st).2 →
        m = computeMasks (inp.env s).done)
    ∧ (∀ (done : List Bool) (p : ℕ),
        (computeMasks done)[p]? = done[p]?.map fun d => if d then (0 : ℚ) else 1)
    ∧ ∀ done : List Bool, ∀ x ∈ computeMasks done, x = 0 ∨ x = 1 := by
  refine ⟨fun s m bm h => (insert_mem_iterTrace a nU j inp st s m bm h).1, ?_, ?_⟩
  · intro done p
    simp [computeMasks, List.getElem?_map]
  · intro done x hx
    simp only [computeMasks, List.mem_map] at hx
    rcases hx with ⟨d, _, hd⟩
    cases d
    · exact Or.inr hd.symm
    · exact Or.inl hd.symm

/-- C3: the bad_mask inserted into storage for process `p` is `0` iff the info
dict for `p` contains the key `"bad_transition"`, and `1` otherwise: every
insert event of an iteration carries exactly `badMasksOf` of that step's
infos. -/
theorem C3_bad_masks_truncation (a : Args) (nU j : ℕ) (inp : IterInput) (st : DriverState) :
    (∀ s m bm, Event.insert s m bm ∈ (iterTrace a nU j inp st).2 →
        bm = badMasksOf (inp.env s).infos)
    ∧ (∀ (infos : List Info) (p : ℕ),
        (badMasksOf infos)[p]? =
          infos[p]?.map fun i => if "bad_transition" ∈ i.keys then (0 : ℚ) else 1)
    ∧ ∀ (infos : List Info) (p : ℕ) (i : Info), infos[p]? = some i →
        ((badMasksOf infos)[p]? = some 0 ↔ "bad_transition" ∈ i.keys) := by
  refine ⟨fun s m bm h => (insert_mem_iterTrace a nU j inp st s m bm h).2, ?_, ?_⟩
  · intro infos p
    simp [badMasksOf, List.getElem?_map]
  · intro infos p i hi
    simp only [badMasksOf, List.getElem?_map, hi, Option.map_some]
    by_cases hk : "bad_transition" ∈ i.keys
    · simp [hk]
    · simp [hk]

/-- C4: the driver loop executes exactly
`num_frames // num_steps // num_processes` iterations, which equals the frame
budget divided by `num_steps * num_processes`, rounded down. -/
theorem C4_iteration_count (a : Args) (inputs : ℕ → IterInput) :
    (driverRun a inputs).length = a.numFrames / a.numSteps / a.numProcesses
    ∧ a.numFrames / a.numSteps / a.numProcesses = a.numFrames / (a.numSteps * a.numProcesses) :=
  ⟨runAux_length a inputs (numUpdates a) 0 (initState a), Nat.div_div_eq_div_mul _ _ _⟩

/-- A small concrete configuration: one process, one step per iteration, a frame
budget of two frames and `save_every = 1`, so the very first iteration crosses
the snapshot threshold. -/
def exArgs : Args :=
  { envName := "E", numFrames := 2, numSteps := 1, numProcesses := 1,
    saveEvery := 1, saveDir := "d", lrDecayType := "none", lr := 3/10000 }

/-- An info dict with no keys. -/
def exInfo0 : Info := { keys := [], episodeR := 0 }

/-- An environment whose single process terminates at every step and reports no
episode summary. -/
def exEnv : ℕ → StepOut := fun _ => { done := [true], infos := [exInfo0] }

/-- Concrete per-iteration inputs for `exEnv`. -/
def exInput : IterInput := { env := exEnv, fps := 100, ppo := (1/2, 1/3, 1/4) }

/-- The same inputs at every iteration. -/
def exInputs : ℕ → IterInput := fun _ => exInput

/-- A second concrete configuration: two processes, linear decay, a large
`save_every` so no snapshot threshold is crossed on the first iteration. -/
def exArgs2 : Args :=
  { envName := "E", numFrames := 4, numSteps := 1, numProcesses := 2,
    saveEvery := 10, saveDir := "d", lrDecayType := "linear", lr := 3/10000 }

/-- An info dict carrying an episode summary with cumulative reward 5. -/
def exInfoEp5 : Info := { keys := ["episode"], episodeR := 5 }

/-- An info dict carrying an episode summary with cumulative reward 7. -/
def exInfoEp7 : Info := { keys := ["episode"], episodeR := 7 }

/-- An environment whose two processes both finish an episode on every step. -/
def exEnv2 : ℕ → StepOut := fun _ => { done := [false, false], infos := [exInfoEp5, exInfoEp7] }

/-- Concrete per-iteration inputs for `exEnv2`. -/
def exInput2 : IterInput := { env := exEnv2, fps := 100, ppo := (1/2, 1/3, 1/4) }

/-- The same inputs at every iteration. -/
def exInputs2 : ℕ → IterInput := fun _ => exInput2

/-- Witness for C2 at a concrete run: the inserted mask list for a done flag is
`[0]`. -/
theorem C2_masks_from_done_witness :
    ([0] : List ℚ) = computeMasks (exInput.env 0).done :=
  (C2_masks_from_done exArgs 2 0 exInput (initState exArgs)).1 0 [0] [1] (by decide)

/-- Witness for C3 at a concrete run: the inserted bad_mask list for an info
without the `"bad_transition"` key is `[1]`. -/
theorem C3_bad_masks_truncation_witness :
    ([1] : List ℚ) = badMasksOf (exInput.env 0).infos :=
  (C3_bad_masks_truncation exArgs 2 0 exInput (initState exArgs)).1 0 [0] [1] (by decide)

/-- C5 is false as stated: in the first iteration of the `exArgs` run the frame
count (1) reaches `next_checkpoint` (1), so a frame-tagged snapshot is written
and the "latest" checkpoint is NOT overwritten in that iteration, refuting
"in every training iteration the latest checkpoint is overwritten". -/
theorem C5_counterexample :
    (driverRun exArgs exInputs).length = 2
    ∧ Event.save gdriveDir SaveTag.latest ∉ ((driverRun exArgs exInputs).headI).2
    ∧ Event.save "d" SaveTag.latest ∉ ((driverRun exArgs exInputs).headI).2
    ∧ Event.save gdriveDir (SaveTag.snapshot 1) ∈ ((driverRun exArgs exInputs).headI).2 := by
  decide

/-- C5 amended: per iteration, a `next_checkpoint`-tagged snapshot is written
iff `save_dir` is nonempty and (the cumulative frame count has reached
`next_checkpoint` or the iteration is the last); the "latest" checkpoint is
overwritten exactly in the other iterations; the "best" checkpoint is
overwritten iff more than one episode reward is recorded and the reward-window
mean strictly exceeds the tracked best mean. -/
theorem C5_amended_saves (a : Args) (nU j ck : ℕ) (mR : WithBot ℚ) (w : List ℚ) :
    ((∃ c, Event.save gdriveDir (SaveTag.snapshot c) ∈ (saveEvents a nU j ck mR w).2) ↔
        ((ck ≤ (j + 1) * a.numSteps * a.numProcesses ∨ j = nU - 1) ∧ a.saveDir ≠ ""))
    ∧ ((Event.save gdriveDir SaveTag.latest ∈ (saveEvents a nU j ck mR w).2) ↔
        ¬((ck ≤ (j + 1) * a.numSteps * a.numProcesses ∨ j = nU - 1) ∧ a.saveDir ≠ ""))
    ∧ ((Event.save gdriveDir SaveTag.best ∈ (saveEvents a nU j ck mR w).2) ↔
        (1 < w.length ∧ mR < ((npMean w : ℚ) : WithBot ℚ))) := by
  refine ⟨?_, ?_, saveEvents_best_mem a nU j ck mR w⟩ <;>
  · simp only [saveEvents, savePlan]
    split <;> split <;> simp_all

/-- C7 is false as stated: in the first iteration of the `exArgs` run no
completed-episode reward has been recorded, so the logging collaborator
receives no record at all in that iteration. -/
theorem C7_counterexample :
    (driverRun exArgs exInputs).length = 2
    ∧ countLogs ((driverRun exArgs exInputs).headI).2 = 0 := by
  decide

/-- C7 amended: an iteration emits exactly one structured log record (with the
iteration number, total step count, fps, entropy, value loss, action loss and
the episode-reward window) when more than one completed-episode reward has
been recorded, and no record otherwise. -/
theorem C7_amended_logging (a : Args) (nU j : ℕ) (inp : IterInput) (st : DriverState) :
    countLogs (iterTrace a nU j inp st).2 =
      (if 1 < (collect a inp.env (List.range a.numSteps) st.episodeRewards).1.length
       then 1 else 0)
    ∧ (1 < (collect a inp.env (List.range a.numSteps) st.episodeRewards).1.length →
        Event.log { iter := j + 1,
                    totalNumSteps := (j + 1) * a.numProcesses * a.numSteps,
                    fps := inp.fps, entropy := inp.ppo.2.2, valueLoss := inp.ppo.1,
                    actionLoss := inp.ppo.2.1,
                    rew := (collect a inp.env (List.range a.numSteps) st.episodeRewards).1 }
          ∈ (iterTrace a nU j inp st).2) := by
  constructor
  · rw [countLogs, iterTrace_trace]
    simp only [logEvents]
    split <;>
      simp [List.filter_append, List.filter_cons, List.cons_append, isLog,
        saveEvents_filter isLog (fun _ _ => rfl),
        stepPhase_filter_none isLog (fun _ => rfl) (fun _ _ _ => rfl) inp.env, *]
  · intro h
    rw [iterTrace_trace]
    simp only [logEvents, if_pos h, List.cons_append, List.mem_cons, List.mem_append,
      List.mem_singleton]
    tauto

/-- Witness for C7 amended at a concrete run with two completed episodes. -/
theorem C7_amended_logging_witness :
    Event.log { iter := 0 + 1,
                totalNumSteps := (0 + 1) * exArgs2.numProcesses * exArgs2.numSteps,
                fps := exInput2.fps, entropy := exInput2.ppo.2.2, valueLoss := exInput2.ppo.1,
                actionLoss := exInput2.ppo.2.1,
                rew := (collect exArgs2 exInput2.env (List.range exArgs2.numSteps)
                  (initState exArgs2).episodeRewards).1 }
      ∈ (iterTrace exArgs2 2 0 exInput2 (initState exArgs2)).2 :=
  (C7_amended_logging exArgs2 2 0 exInput2 (initState exArgs2)).2 (by decide)

/-- C8: the first event of every iteration, before any environment step, is the
learning-rate push with the scheduled value: `linear_decay` to zero for the
linear policy, `exponential_decay` with rate 0.99 toward the positive floor
3e-5 for the exponential policy (the pushed value never drops below the
floor), and the constant configured `lr` otherwise; the linear schedule
reaches exactly zero at the final count. -/
theorem C8_scheduled_lr (a : Args) (nU j : ℕ) (inp : IterInput) (st : DriverState) :
    (iterTrace a nU j inp st).2.head? = some (Event.setLr (scheduledLr a j))
    ∧ (a.lrDecayType = "linear" → scheduledLr a j = linear_decay j (numUpdates a) a.lr 0)
    ∧ (a.lrDecayType = "exponential" →
        scheduledLr a j = exponential_decay j (99/100) a.lr (3/100000)
        ∧ (3/100000 : ℚ) ≤ scheduledLr a j)
    ∧ (a.lrDecayType ≠ "linear" → a.lrDecayType ≠ "exponential" → scheduledLr a j = a.lr)
    ∧ ∀ (total : ℕ) (init : ℚ), 0 < total → linear_decay total total init 0 = 0 := by
  refine ⟨?_, ?_, ?_, ?_, ?_⟩
  · rw [iterTrace_trace]
    rfl
  · intro h
    rw [scheduledLr, if_pos h]
  · intro h
    have hne : a.lrDecayType ≠ "linear" := by rw [h]; decide
    rw [scheduledLr, if_neg hne, if_pos h]
    exact ⟨rfl, le_max_right _ _⟩
  · intro h1 h2
    rw [scheduledLr, if_neg h1, if_neg h2]
  · intro total init ht
    have h0 : (total : ℚ) ≠ 0 := Nat.cast_ne_zero.mpr ht.ne'
    rw [linear_decay, sub_zero, mul_div_assoc, div_self h0, mul_one, sub_self]

/-- Witness for C8 at a concrete linear-decay configuration. -/
theorem C8_scheduled_lr_witness :
    scheduledLr exArgs2 0 = linear_decay 0 (numUpdates exArgs2) exArgs2.lr 0 :=
  (C8_scheduled_lr exArgs2 2 0 exInput2 (initState exArgs2)).2.1 rfl

lemma trace_mem_classify (x : Event) (lr : ℚ) (sp mids sv lg : List Event)
    (h : x ∈ Event.setLr lr :: sp ++ mids ++ sv ++ lg) :
    x = Event.setLr lr ∨ x ∈ sp ∨ x ∈ mids ∨ x ∈ sv ∨ x ∈ lg := by
  simp only [List.cons_append, List.mem_cons, List.mem_append] at h
  tauto

lemma saveAll_ok (fs : String → String → Bool) (a : Args) :
    ∀ (plan : List (String × SaveTag)) (evs : List Event),
      saveAll fs a plan = Except.ok evs →
        evs = plan.map (fun dt => Event.save dt.1 dt.2)
        ∧ ∀ dt ∈ plan, fs dt.1 (fileName a dt.2) = true := by
  intro plan
  induction plan with
  | nil =>
    intro evs h
    simp only [saveAll, Except.ok.injEq] at h
    subst h
    simp
  | cons dt rest ih =>
    intro evs h
    simp only [saveAll, torchSave] at h
    by_cases hfs : fs dt.1 (fileName a dt.2) = true
    · simp only [if_pos hfs] at h
      cases hrest : saveAll fs a rest with
      | error e => simp [hrest] at h
      | ok evs' =>
        simp only [hrest, Except.ok.injEq] at h
        subst h
        obtain ⟨h1, h2⟩ := ih evs' hrest
        subst h1
        refine ⟨by simp, ?_⟩
        intro dt' hdt'
        rcases List.mem_cons.mp hdt' with hd | hd
        · subst hd; exact hfs
        · exact h2 dt' hd
    · simp only [if_neg hfs] at h
      simp at h

lemma iterTraceE_ok (a : Args) (fs : String → String → Bool) (nU j : ℕ) (inp : IterInput)
    (st : DriverState) (r : DriverState × List Event)
    (h : iterTraceE a fs nU j inp st = Except.ok r) :
    ∀ e ∈ r.2, ∀ d t, e = Event.save d t → fs d (fileName a t) = true := by
  simp only [iterTraceE] at h
  cases hsa : saveAll fs a (savePlan a nU j st.nextCheckpoint st.maxEpReward
      (collect a inp.env (List.range a.numSteps) st.episodeRewards).1).2 with
  | error e => simp [hsa] at h
  | ok evs =>
    simp only [hsa, Except.ok.injEq] at h
    obtain ⟨hevs, hok⟩ := saveAll_ok fs a _ evs hsa
    subst h
    intro e he d t het
    subst het
    rcases trace_mem_classify _ _ _ _ _ _ he with hc | hc | hc | hc | hc
    · simp at hc
    · rw [collect_snd] at hc
      rcases stepPhase_mem inp.env _ _ hc with ⟨s, hs⟩ | ⟨s, hs⟩ <;> simp at hs
    · simp at hc
    · subst hevs
      simp only [List.mem_map] at hc
      rcases hc with ⟨dt, hdt, hsave⟩
      rw [Event.save.injEq] at hsave
      rcases hsave with ⟨hd, ht⟩
      rw [← hd, ← ht]
      exact hok dt hdt
    · rcases logEvents_mem _ _ _ _ _ _ hc with ⟨rr, hrr⟩
      simp at hrr

lemma runAuxE_ok (a : Args) (fs : String → String → Bool) (inputs : ℕ → IterInput) :
    ∀ (n j : ℕ) (st : DriverState) (pairs : List (DriverState × List Event)),
      runAuxE a fs inputs n j st = Except.ok pairs →
        pairs.length = n
        ∧ ∀ p ∈ pairs, ∀ e ∈ p.2, ∀ d t, e = Event.save d t → fs d (fileName a t) = true := by
  intro n
  induction n with
  | zero =>
    intro j st pairs h
    simp only [runAuxE, Except.ok.injEq] at h
    subst h
    simp
  | succ n ih =>
    intro j st pairs h
    simp only [runAuxE] at h
    cases hit : iterTraceE a fs (numUpdates a) j (inputs j) st with
    | error e => simp [hit] at h
    | ok r =>
      simp only [hit] at h
      cases hrest : runAuxE a fs inputs n (j + 1) r.1 with
      | error e => simp [hrest] at h
      | ok rest =>
        simp only [hrest, Except.ok.injEq] at h
        subst h
        obtain ⟨hlen, hprop⟩ := ih (j + 1) r.1 rest hrest
        refine ⟨by simp [hlen], ?_⟩
        intro p hp
        rcases List.mem_cons.mp hp with hc | hc
        · subst hc
          exact iterTraceE_ok a fs (numUpdates a) j (inputs j) st p hit
        · exact hprop p hc

/-- C6 is false as stated: with a filesystem on which every write fails, the
concrete run (configured for two iterations) aborts with the save error raised
in the first iteration instead of catching it and continuing. -/
theorem C6_counterexample :
    driverRunE exArgs (fun _ _ => false) exInputs
      = Except.error "could not save /content/gdrive/My Drive/darwin2/E_1.pt"
    ∧ numUpdates exArgs = 2 :=
  ⟨rfl, rfl⟩

/-- C6 amended: a checkpoint write failure is fatal, not caught: a run only
completes (returning exactly `num_updates` iterations) when every attempted
checkpoint write succeeded, so any failing write prevents the loop from
finishing; nothing in the loop logs and continues past the failure. -/
theorem C6_amended_fatal_saves (a : Args) (fs : String → String → Bool)
    (inputs : ℕ → IterInput) (pairs : List (DriverState × List Event))
    (h : driverRunE a fs inputs = Except.ok pairs) :
    pairs.length = numUpdates a
    ∧ ∀ p ∈ pairs, ∀ e ∈ p.2, ∀ d t, e = Event.save d t → fs d (fileName a t) = true :=
  runAuxE_ok a fs inputs (numUpdates a) 0 (initState a) pairs h

/-- Witness for C6 amended: with an always-succeeding filesystem the concrete
run completes all its iterations. -/
theorem C6_amended_fatal_saves_witness :
    (driverRun exArgs exInputs).length = numUpdates exArgs :=
  (C6_amended_fatal_saves exArgs (fun _ _ => true) exInputs (driverRun exArgs exInputs)
    (by rfl)).1

/-- C9: for all-ones mask sequences and `use_gae = false`, `compute_returns`
computes the exact N-step discounted return:
`returns[t] = Σ_{k=0}^{T-1-t} γ^k · reward[t+k] + γ^{T-t} · bootstrap`. -/
theorem C9_nstep_return (gamma bootstrap : ℚ) (rewards : List ℚ) (t : ℕ)
    (ht : t ≤ rewards.length) :
    (compute_returns_no_gae gamma bootstrap (rewards.map fun r => (r, 1)))[t]?
      = some ((∑ k ∈ Finset.range (rewards.length - t), gamma ^ k * rewards.getD (t + k) 0)
          + gamma ^ (rewards.length - t) * bootstrap) := by
  induction rewards generalizing t with
  | nil =>
    have h0 : t = 0 := Nat.le_zero.mp ht
    subst h0
    simp [compute_returns_no_gae]
  | cons r rs ih =>
    cases t with
    | zero =>
      have h0 := ih 0 (Nat.zero_le _)
      simp only [Nat.sub_zero, Nat.zero_add] at h0
      simp only [List.map_cons, compute_returns_no_gae, List.getElem?_cons_zero,
        Option.some.injEq]
      have hh : (compute_returns_no_gae gamma bootstrap (rs.map fun x => (x, 1))).headI
          = (∑ k ∈ Finset.range rs.length, gamma ^ k * rs.getD k 0)
            + gamma ^ rs.length * bootstrap := by
        rcases hc : compute_returns_no_gae gamma bootstrap (rs.map fun x => (x, 1)) with
          _ | ⟨y, ys⟩
        · rw [hc] at h0
          simp at h0
        · rw [hc] at h0
          simp only [List.getElem?_cons_zero, Option.some.injEq] at h0
          simpa [List.headI] using h0
      rw [hh]
      simp only [List.length_cons, Nat.sub_zero, Nat.zero_add]
      rw [Finset.sum_range_succ']
      simp only [List.getD_cons_succ, List.getD_cons_zero, pow_zero, one_mul]
      have hs : (∑ k ∈ Finset.range rs.length, gamma ^ k * rs.getD k 0) * gamma
          = ∑ k ∈ Finset.range rs.length, gamma ^ (k + 1) * rs.getD k 0 := by
        rw [Finset.sum_mul]
        exact Finset.sum_congr rfl fun k _ => by ring
      linear_combination hs
    | succ t' =>
      have ht' : t' ≤ rs.length := by
        simp only [List.length_cons] at ht
        omega
      simp only [List.map_cons, compute_returns_no_gae, List.getElem?_cons_succ]
      rw [ih t' ht']
      simp only [List.length_cons, Nat.succ_sub_succ, Option.some.injEq]
      congr 1
      exact Finset.sum_congr rfl fun k _ => by
        rw [Nat.add_right_comm t' 1 k, List.getD_cons_succ]

/-- Witness for C9 at a concrete two-step rollout. -/
theorem C9_nstep_return_witness :
    (compute_returns_no_gae (1/2) 2 (([1, 3] : List ℚ).map fun r => (r, 1)))[0]?
      = some ((∑ k ∈ Finset.range (([1, 3] : List ℚ).length - 0),
            (1/2 : ℚ) ^ k * ([1, 3] : List ℚ).getD (0 + k) 0)
          + (1/2 : ℚ) ^ (([1, 3] : List ℚ).length - 0) * 2) :=
  C9_nstep_return (1/2) 2 [1, 3] 0 (by decide)

lemma bestSaveMeans_cons (p : DriverState × List Event)
    (rest : List (DriverState × List Event)) :
    bestSaveMeans (p :: rest) =
      if Event.save gdriveDir SaveTag.best ∈ p.2
      then npMean p.1.episodeRewards :: bestSaveMeans rest
      else bestSaveMeans rest := by
  by_cases h : Event.save gdriveDir SaveTag.best ∈ p.2 <;>
    simp [bestSaveMeans, List.filter_cons, h]

lemma iterTrace_best_mem (a : Args) (nU j : ℕ) (inp : IterInput) (st : DriverState) :
    Event.save gdriveDir SaveTag.best ∈ (iterTrace a nU j inp st).2 ↔
      (1 < (collect a inp.env (List.range a.numSteps) st.episodeRewards).1.length
        ∧ st.maxEpReward <
          ((npMean (collect a inp.env (List.range a.numSteps) st.episodeRewards).1 : ℚ) :
            WithBot ℚ)) := by
  constructor
  · intro h
    rcases iterTrace_mem_cases a nU j inp st _ h with hc | hc | hc | hc | hc | hc | hc | hc
    · simp at hc
    · rcases stepPhase_mem inp.env _ _ hc with ⟨s, hs⟩ | ⟨s, hs⟩ <;> simp at hs
    · simp at hc
    · simp at hc
    · simp at hc
    · simp at hc
    · exact (saveEvents_best_mem _ _ _ _ _ _).mp hc
    · rcases logEvents_mem _ _ _ _ _ _ hc with ⟨rr, hrr⟩
      simp at hrr
  · intro h
    rw [iterTrace_trace]
    have hm := (saveEvents_best_mem a nU j st.nextCheckpoint st.maxEpReward
      (collect a inp.env (List.range a.numSteps) st.episodeRewards).1).mpr h
    simp only [List.cons_append, List.mem_cons, List.mem_append]
    tauto

lemma runAux_chain (a : Args) (inputs : ℕ → IterInput) :
    ∀ (n j : ℕ) (st : DriverState),
      List.Chain' (· < ·)
        (st.maxEpReward ::
          (bestSaveMeans (runAux a inputs n j st)).map fun q => ((q : ℚ) : WithBot ℚ)) := by
  intro n
  induction n with
  | zero =>
    intro j st
    simp [runAux, bestSaveMeans]
  | succ n ih =>
    intro j st
    simp only [runAux]
    rw [bestSaveMeans_cons]
    by_cases hb : Event.save gdriveDir SaveTag.best ∈
        (iterTrace a (numUpdates a) j (inputs j) st).2
    · rw [if_pos hb]
      have hcond := (iterTrace_best_mem a (numUpdates a) j (inputs j) st).mp hb
      have hmax : (iterTrace a (numUpdates a) j (inputs j) st).1.maxEpReward
          = ((npMean (collect a (inputs j).env (List.range a.numSteps)
              st.episodeRewards).1 : ℚ) : WithBot ℚ) := by
        rw [iterTrace_state]
        exact (saveEvents_maxR _ _ _ _ _ _).trans (if_pos hcond)
      have hrew : (iterTrace a (numUpdates a) j (inputs j) st).1.episodeRewards
          = (collect a (inputs j).env (List.range a.numSteps) st.episodeRewards).1 := by
        rw [iterTrace_state]
      rw [List.map_cons, List.chain'_cons]
      constructor
      · rw [hrew]
        exact hcond.2
      · have hIH := ih (j + 1) (iterTrace a (numUpdates a) j (inputs j) st).1
        rw [hmax] at hIH
        rw [hrew]
        exact hIH
    · rw [if_neg hb]
      have hncond : ¬(1 < (collect a (inputs j).env (List.range a.numSteps)
            st.episodeRewards).1.length
          ∧ st.maxEpReward < ((npMean (collect a (inputs j).env (List.range a.numSteps)
              st.episodeRewards).1 : ℚ) : WithBot ℚ)) :=
        fun hc => hb ((iterTrace_best_mem a (numUpdates a) j (inputs j) st).mpr hc)
      have hmax : (iterTrace a (numUpdates a) j (inputs j) st).1.maxEpReward
          = st.maxEpReward := by
        rw [iterTrace_state]
        exact (saveEvents_maxR _ _ _ _ _ _).trans (if_neg hncond)
      have hIH := ih (j + 1) (iterTrace a (numUpdates a) j (inputs j) st).1
      rw [hmax] at hIH
      exact hIH

/-- C10: a best checkpoint is written only when strictly more than one
completed-episode reward is recorded and the window mean strictly exceeds the
tracked best mean; consequently the window means recorded at the best-saving
iterations of any run form a strictly increasing sequence. -/
theorem C10_best_save_invariant (a : Args) (inputs : ℕ → IterInput) :
    (∀ (nU j ck : ℕ) (mR : WithBot ℚ) (w : List ℚ),
        Event.save gdriveDir SaveTag.best ∈ (saveEvents a nU j ck mR w).2 →
          1 < w.length ∧ mR < ((npMean w : ℚ) : WithBot ℚ))
    ∧ List.Chain' (· < ·) (bestSaveMeans (driverRun a inputs)) := by
  constructor
  · intro nU j ck mR w h
    exact (saveEvents_best_mem a nU j ck mR w).mp h
  · have h := runAux_chain a inputs (numUpdates a) 0 (initState a)
    have h2 := h.tail
    simp only [List.tail_cons] at h2
    have h3 := (List.chain'_map _).mp h2
    exact List.Chain'.imp (fun x y hxy => WithBot.coe_lt_coe.mp hxy) h3

/-- Witness for C10: the best-save condition extracted at a concrete window. -/
theorem C10_best_save_invariant_witness :
    1 < ([5, 7] : List ℚ).length
    ∧ (⊥ : WithBot ℚ) < ((npMean [5, 7] : ℚ) : WithBot ℚ) :=
  (C10_best_save_invariant exArgs2 exInputs2).1 2 0 10 ⊥ [5, 7] (by decide)

end SymmetricRL
